import Mathlib

set_option maxRecDepth 4000

/-!
Verification of the Feature Report Field View & Patch Engine of `hid-feature`
(src/main.rs), shallowly embedded in Lean.

Bytes are modelled as `Nat` values (< 256, coming from `u8`); fixed-capacity
Rust arrays (`[u8; N]`) are modelled as functions `Nat → Nat` together with an
explicit capacity, and every Rust index operation carries its bounds check:
an out-of-bounds access is a Rust panic, modelled as the distinguished
error `SetErr.panic` (process termination), as opposed to the `anyhow`
typed errors (`SetErr.bailMsg`, `SetErr.badToken`).
-/

namespace HidFeature

/-- A parsed Feature Report as produced by the descriptor decoder:
an optional Report ID (`report.report_id()`, decoded `u8`) and the logical
size in bytes (`report.size_in_bytes()`). -/
structure Report where
  reportId : Option Nat
  sizeInBytes : Nat
deriving Repr, DecidableEq

/-- `type FeatureReport = [u8; 1024]` (main.rs line 10): capacity of the
output buffer `values` in `set` and of the fetch buffer in `list`. -/
def BUF_CAP : Nat := 1024

/-- The fetch buffer in `set` is `[u8; 20]` (main.rs line 308). -/
def FETCH_CAP : Nat := 20

/- ## Read path (`list`) -/

/-- main.rs lines 203-206: `let report_id: u8 = match report.report_id() {
None => 0xff, Some(id) => u8::from(id) }`. -/
def list_report_id (rep : Report) : Nat :=
  match rep.reportId with
  | none => 0xff
  | some id => id

/-- main.rs line 263: the report id column is printed as `report_id as i8`
(two's-complement reinterpretation of the `u8`). -/
def display_report_id (rep : Report) : Int :=
  let v := list_report_id rep
  if v < 128 then (v : Int) else (v : Int) - 256

/-- main.rs line 208: the comparison `report_id == *filter_id` at the filter
boundary. -/
def list_filter_match (rep : Report) (f : Nat) : Bool :=
  list_report_id rep == f

/-- main.rs lines 207-210: `if let Some(filter_id) = filter_id {
if report_id == *filter_id { continue } }` — whether the loop skips
this report. -/
def list_skip (rep : Report) (filter : Option Nat) : Bool :=
  match filter with
  | some f => list_filter_match rep f
  | none => false

/-- The reports the `list` loop actually processes (does not `continue` past). -/
def list_processed (reports : List Report) (filter : Option Nat) : List Report :=
  reports.filter (fun rep => ! list_skip rep filter)

/-- main.rs lines 217-221: `let fetch_size = match report.report_id() {
Some(_) => report_size, None => report_size + 1 }` in `list`. -/
def list_fetch_size (rep : Report) : Nat :=
  match rep.reportId with
  | some _ => rep.sizeInBytes
  | none => rep.sizeInBytes + 1

/-- main.rs line 225: `let values = r[..report_size].to_vec()` where `r` is a
`FeatureReport` (`[u8; 1024]`); the slice panics (`none`) if
`report_size` exceeds the buffer capacity. -/
def list_values (r : Nat → Nat) (report_size : Nat) : Option (List Nat) :=
  if report_size ≤ BUF_CAP then some ((List.range report_size).map r) else none

/-- main.rs lines 232-233: `let offset = field.bits().start / 8;
let end = (field.bits().end - 1) / 8;`. -/
def byte_window (bitStart bitEnd : Nat) : Nat × Nat :=
  (bitStart / 8, (bitEnd - 1) / 8)

/- ## Hex token parsing (write path) -/

/-- Rust `char::to_digit(16)`: `0-9`, `a-f`, `A-F`. -/
def hexDigit? (c : Char) : Option Nat :=
  if '0' ≤ c ∧ c ≤ '9' then some (c.toNat - 48)
  else if 'a' ≤ c ∧ c ≤ 'f' then some (c.toNat - 87)
  else if 'A' ≤ c ∧ c ≤ 'F' then some (c.toNat - 55)
  else none

/-- The digit-accumulation loop of `u8::from_str_radix(s, 16)`: each step is a
checked multiply-by-16 and checked add, failing (`none`) on an invalid digit
or on overflow past `u8::MAX = 255`. -/
def parse_hex_digits : List Char → Nat → Option Nat
  | [], acc => some acc
  | c :: cs, acc =>
    match hexDigit? c with
    | none => none
    | some d => if acc * 16 + d ≤ 255 then parse_hex_digits cs (acc * 16 + d) else none

/-- `u8::from_str_radix(s, 16)`: empty input fails; a single `"+"` fails; a
leading `'+'` is stripped (a leading `'-'` is not stripped for unsigned
types and then fails as an invalid digit); the remaining characters are
parsed as checked base-16 digits. -/
def u8_from_str_radix_16 (s : String) : Option Nat :=
  match s.toList with
  | [] => none
  | c :: rest =>
    if c = '+' then
      match rest with
      | [] => none
      | _ :: _ => parse_hex_digits rest 0
    else parse_hex_digits (c :: rest) 0

/-- main.rs lines 283-285: a patch token passes validation when it is the
wildcard `"xx"` or `u8::from_str_radix(v, 16)` succeeds. -/
def token_accepted (s : String) : Bool :=
  s == "xx" || (u8_from_str_radix_16 s).isSome

/-- One unchecked base-16 accumulation step. -/
def hex_step (a : Nat) (c : Char) : Nat :=
  a * 16 + (hexDigit? c).getD 0

/-- The plain (unchecked) base-16 value of a digit list. -/
def hex_value (ds : List Char) : Nat :=
  ds.foldl hex_step 0

/-- Modelled from the spec (claim C4's wording): a token is the wildcard
`"xx"` or "a valid single-byte hexadecimal value of exactly two hex digits
with no prefix". Used only to compare the spec's acceptance predicate with
the source's. -/
def spec_token_two_hex (s : String) : Bool :=
  s == "xx" ||
    (match s.toList with
     | [c1, c2] => (hexDigit? c1).isSome && (hexDigit? c2).isSome
     | _ => false)

/- ## Write path (`set`) -/

/-- Failure modes of the `set` core: `bailMsg` models an `anyhow` error built
from a literal message (`bail!` / `.context(...)` on `None`), `badToken`
the token-validation error of lines 283-285, and `panic` a Rust panic
(`unwrap` on `None`, slice/index out of bounds) — process termination,
not a typed result. -/
inductive SetErr where
  | bailMsg (msg : String)
  | badToken
  | panic
deriving Repr, DecidableEq

/-- main.rs lines 283-285: `for v in bytes.iter().filter(|v| v != &"xx") {
u8::from_str_radix(v, 16).context(...)? }` — runs before any device
access or buffer mutation. -/
def validate_tokens : List String → Except SetErr Unit
  | [] => .ok ()
  | v :: rest =>
    if v == "xx" then validate_tokens rest
    else
      match u8_from_str_radix_16 v with
      | some _ => validate_tokens rest
      | none => .error .badToken

/-- main.rs lines 288-291: `reports.iter().find(|r|
u8::from(r.report_id().unwrap()) == *id).context("Unable to find report {id}")`.
The `unwrap()` of a missing report id is a panic; the `context` string is a
plain literal (not a `format!`), kept verbatim. -/
def find_unwrap : List Report → Nat → Except SetErr Report
  | [], _ => .error (.bailMsg "Unable to find report {id}")
  | rep :: rest, id =>
    match rep.reportId with
    | none => .error .panic
    | some rid => if rid == id then .ok rep else find_unwrap rest id

/-- main.rs lines 287-293: report selection in `set` — by filter id via
`find_unwrap`, else `reports.first().unwrap()`. -/
def select_report (reports : List Report) (filter : Option Nat) : Except SetErr Report :=
  match filter with
  | some id => find_unwrap reports id
  | none =>
    match reports with
    | [] => .error .panic
    | rep :: _ => .ok rep

/-- main.rs lines 302-306: `let fetch_size = match report.report_id() {
Some(_) => report_size, None => report_size + 1 }` in `set`. -/
def set_fetch_size (rep : Report) : Nat :=
  match rep.reportId with
  | some _ => rep.sizeInBytes
  | none => rep.sizeInBytes + 1

/-- main.rs lines 312-318: the width of the injected leading Report-ID slot
(`rid_off`): 0 when the report has an id, 1 when not. -/
def rid_off (rep : Report) : Nat :=
  match rep.reportId with
  | some _ => 0
  | none => 1

/-- A checked write `b[i] = v` into a buffer of capacity `cap`; `none` models
the Rust index panic when `i` is out of bounds. -/
def buf_write (cap : Nat) (b : Nat → Nat) (i v : Nat) : Option (Nat → Nat) :=
  if i < cap then some (fun j => if j = i then v else b j) else none

/-- A checked read `b[i]` from a buffer of capacity `cap`; `none` models the
Rust index panic. -/
def buf_read (cap : Nat) (b : Nat → Nat) (i : Nat) : Option Nat :=
  if i < cap then some (b i) else none

/-- main.rs lines 319-321: `for (i, v) in r[0..report_size].iter().enumerate()
{ values[i + rid_off] = *v }` — copies `n` fetched bytes starting at source
index `i` into `values` shifted by `ro`. -/
def copy_loop (r : Nat → Nat) (ro : Nat) : Nat → Nat → (Nat → Nat) → Option (Nat → Nat)
  | _, 0, values => some values
  | i, n + 1, values =>
    match buf_write BUF_CAP values (i + ro) (r i) with
    | none => none
    | some values => copy_loop r ro (i + 1) n values

/-- main.rs lines 323-330: the patch loop. For token `i` at
`idx = offset + rid_off + i`: a literal is re-parsed and written at `idx`;
the wildcard writes `r[i]` (read from the `[u8; 20]` fetch buffer) at
`idx`. Every index operation carries its bounds check. -/
def token_loop (r : Nat → Nat) (offset ro : Nat) :
    List String → Nat → (Nat → Nat) → Except SetErr (Nat → Nat)
  | [], _, values => .ok values
  | val :: rest, i, values =>
    let idx := offset + ro + i
    if val == "xx" then
      match buf_read FETCH_CAP r i with
      | none => .error .panic
      | some b =>
        match buf_write BUF_CAP values idx b with
        | none => .error .panic
        | some values => token_loop r offset ro rest (i + 1) values
    else
      match u8_from_str_radix_16 val with
      | none => .error .badToken
      | some b =>
        match buf_write BUF_CAP values idx b with
        | none => .error .panic
        | some values => token_loop r offset ro rest (i + 1) values

/-- main.rs lines 311-330: build the output buffer. Zero-fill `values`
(`[0; 1024]`), write the Report-ID byte `rid = report_id().map_or(0, ...)`
at position 0 when the report has no id, slice `r[0..report_size]` out of
the `[u8; 20]` fetch buffer (panicking when it is too short), copy it
shifted by `rid_off`, then run the patch loop. -/
def set_merge (rep : Report) (r : Nat → Nat) (bytes : List String) (offset : Nat) :
    Except SetErr (Nat → Nat) :=
  match (match rep.reportId with
         | some _ => some (fun _ => (0 : Nat))
         | none => buf_write BUF_CAP (fun _ => 0) 0 ((rep.reportId).getD 0)) with
  | none => .error .panic
  | some values =>
    if rep.sizeInBytes ≤ FETCH_CAP then
      match copy_loop r (rid_off rep) 0 rep.sizeInBytes values with
      | none => .error .panic
      | some values => token_loop r offset (rid_off rep) bytes 0 values
    else .error .panic

/-- main.rs lines 275-334, the `set` function up to the point the buffer is
handed to `send_feature_report_with_size`: bail when the device has no
Feature Reports, validate the patch tokens, select the report, then merge
the fetched bytes `r` with the patch. A `.ok` value is the buffer that is
sent; any `.error` means no send is performed. -/
def set_core (reports : List Report) (filter : Option Nat) (bytes : List String)
    (offset : Nat) (r : Nat → Nat) : Except SetErr (Nat → Nat) :=
  match reports with
  | [] => .error (.bailMsg "This device does not have any Feature Reports")
  | _ :: _ =>
    match validate_tokens bytes with
    | .error e => .error e
    | .ok _ =>
      match select_report reports filter with
      | .error e => .error e
      | .ok rep => set_merge rep r bytes offset

/-- Read index `i` of a successful merge result. -/
def probe (e : Except SetErr (Nat → Nat)) (i : Nat) : Option Nat :=
  match e with
  | .ok b => some (b i)
  | .error _ => none

/-- A concrete fetched buffer: bytes `01 02`, rest zero. -/
def c1_fetched : Nat → Nat :=
  fun i => if i = 0 then 1 else if i = 1 then 2 else 0

/- ## Helper lemmas -/

theorem find_unwrap_scanned_none (pre post : List Report) (rep : Report) (id : Nat)
    (hnone : rep.reportId = none)
    (hpre : ∀ p ∈ pre, ∃ rid, p.reportId = some rid ∧ rid ≠ id) :
    find_unwrap (pre ++ rep :: post) id = .error .panic := by
  induction pre with
  | nil => simp [find_unwrap, hnone]
  | cons p ps ih =>
    obtain ⟨rid, hrid, hne⟩ := hpre p (by simp)
    have hbeq : (rid == id) = false := by simpa using hne
    simp only [List.cons_append, find_unwrap, hrid, hbeq, Bool.false_eq_true, if_false]
    exact ih (fun q hq => hpre q (by simp [hq]))

/- ## Claim theorems -/

/-- C1: the claim says a wildcard token at position `i` leaves the
already-copied fetched value at output index `offset + rid_off + i`
untouched. The code instead executes `values[idx] = r[i]`: with report id 3,
logical size 2, fetched bytes `01 02` and patch `["xx"]` at offset 1, the
output byte at index 1 becomes `01` (the fetched byte at index 0), while
the fetched byte at index 1 is `02` — the "no-op" overwrites it. -/
theorem c1_wildcard_not_noop :
    probe (set_merge ⟨some 3, 2⟩ c1_fetched ["xx"] 1) 1 = some 1 ∧
    c1_fetched 1 = 2 :=
  ⟨rfl, rfl⟩

/-- C2: the claim says a Report-ID filter in the read path selects exactly
the reports whose decoded id equals the filter. The code's
`if report_id == *filter_id { continue }` does the opposite: with reports of
ids 1 and 2 and filter 1, the processed list is the report with id 2 — the
matching report (and only it) is skipped. -/
theorem c2_filter_excludes_match :
    list_processed [⟨some 1, 1⟩, ⟨some 2, 1⟩] (some 1) = [⟨some 2, 1⟩] ∧
    list_filter_match ⟨some 1, 1⟩ 1 = true := by
  decide

/-- C3: in both the read (`list`) and write (`set`) paths, the physical
transfer size equals the logical report size when the report declares a
Report ID, and the logical size plus 1 when it declares none. -/
theorem c3_fetch_size_spec (rep : Report) (i : Nat) :
    (rep.reportId = some i →
      list_fetch_size rep = rep.sizeInBytes ∧ set_fetch_size rep = rep.sizeInBytes) ∧
    (rep.reportId = none →
      list_fetch_size rep = rep.sizeInBytes + 1 ∧ set_fetch_size rep = rep.sizeInBytes + 1) := by
  constructor
  · intro h
    simp [list_fetch_size, set_fetch_size, h]
  · intro h
    simp [list_fetch_size, set_fetch_size, h]

/-- Witness for C3: logical size 8 with no Report ID gives transfer size 9. -/
theorem c3_fetch_size_witness :
    list_fetch_size ⟨none, 8⟩ = 8 + 1 ∧ set_fetch_size ⟨none, 8⟩ = 8 + 1 :=
  (c3_fetch_size_spec ⟨none, 8⟩ 0).2 rfl

/-- C5: the claim says a filter matching no report fails with a message that
names the requested ID. The code's `.context("Unable to find report {id}")`
is a plain string literal, not a `format!`: with a single report of id 1 and
filter 5, the error message is literally `Unable to find report {id}` and
does not contain the character `5`. -/
theorem c5_error_message_literal :
    set_core [⟨some 1, 8⟩] (some 5) [] 0 (fun _ => 0) =
      .error (.bailMsg "Unable to find report {id}") ∧
    ("Unable to find report {id}".toList.contains '5') = false :=
  ⟨rfl, by decide⟩

/-- C6 (counterexample to the claim as stated): the claim says an
out-of-bounds patch index fails with a typed result, not process
termination. With report id 1, size 2, one valid token `"aa"` and
offset 1024, the write at index `1024 + 0 + 0` is out of bounds for the
1024-byte output buffer and the code takes the index-panic path (process
termination), not a typed `anyhow` error. -/
theorem c6_oob_panic_counterexample :
    set_core [⟨some 1, 2⟩] none ["aa"] 1024 (fun _ => 0) = .error .panic :=
  rfl

/-- C7: the claim says every buffer the core fetches into has capacity at
least any supported report size (1024). The write path fetches into a
`[u8; 20]` buffer: a report of logical size 21 (with id, well within the
1024 supported by the read path, whose slicing succeeds) panics when
`r[0..21]` is sliced out of the 20-byte fetch buffer. -/
theorem c7_set_fetch_buffer_small :
    set_merge ⟨some 1, 21⟩ (fun _ => 0) [] 0 = .error .panic ∧
    (list_values (fun _ => 0) 21).isSome = true ∧
    FETCH_CAP < 21 ∧ 21 ≤ BUF_CAP := by
  refine ⟨rfl, by decide, by decide, by decide⟩

/-- C8: for a field with bit range `[s, e)`, `s < e`, `e ≤ 8 * rs`, the byte
window `(s / 8, (e - 1) / 8)` satisfies `offset ≤ end_inclusive`, both lie
in `[0, rs)`, every bit of the field falls inside the window, and both
window endpoints are hit by some bit of the field (minimality). -/
theorem c8_byte_window_minimal (s e rs : Nat) (hse : s < e) (hrs : e ≤ 8 * rs) :
    (byte_window s e).1 ≤ (byte_window s e).2 ∧
    (byte_window s e).1 < rs ∧ (byte_window s e).2 < rs ∧
    (∀ b, s ≤ b → b < e → (byte_window s e).1 ≤ b / 8 ∧ b / 8 ≤ (byte_window s e).2) ∧
    (∃ b, s ≤ b ∧ b < e ∧ b / 8 = (byte_window s e).1) ∧
    (∃ b, s ≤ b ∧ b < e ∧ b / 8 = (byte_window s e).2) := by
  simp only [byte_window]
  refine ⟨by omega, by omega, by omega,
    fun b hb1 hb2 => ⟨by omega, by omega⟩,
    ⟨s, le_refl s, hse, rfl⟩,
    ⟨e - 1, by omega, by omega, rfl⟩⟩

/-- Witness for C8 at the spec's example geometry: a 4-bit field at bits
`[4, 8)` of a 1-byte report. -/
theorem c8_byte_window_witness :
    (byte_window 4 8).1 ≤ (byte_window 4 8).2 ∧
    (byte_window 4 8).1 < 1 ∧ (byte_window 4 8).2 < 1 ∧
    (∀ b, 4 ≤ b → b < 8 → (byte_window 4 8).1 ≤ b / 8 ∧ b / 8 ≤ (byte_window 4 8).2) ∧
    (∃ b, 4 ≤ b ∧ b < 8 ∧ b / 8 = (byte_window 4 8).1) ∧
    (∃ b, 4 ≤ b ∧ b < 8 ∧ b / 8 = (byte_window 4 8).2) :=
  c8_byte_window_minimal 4 8 1 (by decide) (by decide)

/-- C9: a report with no Report ID is decoded to the sentinel byte `0xff`,
displayed (as `i8`) as `-1`, a filter value of 255 matches every ID-less
report at the filter boundary, and an ID-less report is indistinguishable
from a report with numeric id 255 for every filter value. -/
theorem c9_noid_sentinel (sz f : Nat) :
    list_report_id ⟨none, sz⟩ = 0xff ∧
    display_report_id ⟨none, sz⟩ = -1 ∧
    list_filter_match ⟨none, sz⟩ 255 = true ∧
    list_filter_match ⟨none, sz⟩ f = list_filter_match ⟨some 255, sz⟩ f :=
  ⟨rfl, by norm_num [display_report_id, list_report_id], rfl, rfl⟩

/-- C10: in the write path with a Report-ID filter, the selection loop
unwraps each scanned report's optional id: if the scan reaches a report
without a Report ID (every earlier report has a non-matching id), the
result is a panic (process termination), not a typed failure. -/
theorem c10_unwrap_panics (pre post : List Report) (rep : Report) (id : Nat)
    (hnone : rep.reportId = none)
    (hpre : ∀ p ∈ pre, ∃ rid, p.reportId = some rid ∧ rid ≠ id) :
    select_report (pre ++ rep :: post) (some id) = .error .panic :=
  find_unwrap_scanned_none pre post rep id hnone hpre

/-- Witness for C10: reports `[id 1, no-id]` with filter 2 panic. -/
theorem c10_unwrap_panics_witness :
    select_report [⟨some 1, 8⟩, ⟨none, 8⟩] (some 2) = .error .panic :=
  c10_unwrap_panics [⟨some 1, 8⟩] [] ⟨none, 8⟩ 2 rfl
    (fun p hp => by
      simp only [List.mem_singleton] at hp
      exact ⟨1, by rw [hp], by decide⟩)

/-- C4 (counterexample to the claim as stated): the claim says a token is
accepted only if it is `"xx"` or exactly two hex digits. The single-digit
token `"f"` is accepted by the code's `u8::from_str_radix(v, 16)`. -/
theorem c4_one_digit_accepted :
    token_accepted "f" = true ∧ spec_token_two_hex "f" = false := by
  decide

/- ## Lemmas on hex parsing and the merge loops -/

theorem le_foldl_hex_step (ds : List Char) :
    ∀ acc : Nat, acc ≤ ds.foldl hex_step acc := by
  induction ds with
  | nil => intro acc; simp
  | cons c cs ih =>
    intro acc
    have h1 : acc ≤ hex_step acc c := by unfold hex_step; omega
    calc acc ≤ hex_step acc c := h1
      _ ≤ cs.foldl hex_step (hex_step acc c) := ih _
      _ = (c :: cs).foldl hex_step acc := rfl

theorem parse_hex_digits_isSome (ds : List Char) :
    ∀ acc : Nat, acc ≤ 255 →
      ((parse_hex_digits ds acc).isSome = true ↔
        ((∀ c ∈ ds, (hexDigit? c).isSome = true) ∧ ds.foldl hex_step acc ≤ 255)) := by
  induction ds with
  | nil =>
    intro acc hacc
    simp [parse_hex_digits, hacc]
  | cons c cs ih =>
    intro acc hacc
    cases hc : hexDigit? c with
    | none =>
      simp [parse_hex_digits, hc]
    | some d =>
      have hstep : hex_step acc c = acc * 16 + d := by simp [hex_step, hc]
      by_cases hle : acc * 16 + d ≤ 255
      · rw [show parse_hex_digits (c :: cs) acc = parse_hex_digits cs (acc * 16 + d) by
          simp [parse_hex_digits, hc, hle]]
        rw [ih (acc * 16 + d) hle]
        simp only [List.foldl_cons, hstep, List.mem_cons]
        constructor
        · rintro ⟨hall, hb⟩
          exact ⟨fun x hx => by
            rcases hx with hx | hx
            · subst hx; simp [hc]
            · exact hall x hx, hb⟩
        · rintro ⟨hall, hb⟩
          exact ⟨fun x hx => hall x (Or.inr hx), hb⟩
      · rw [show parse_hex_digits (c :: cs) acc = none by
          simp [parse_hex_digits, hc, hle]]
        have hmono := le_foldl_hex_step cs (hex_step acc c)
        simp only [Option.isSome_none, Bool.false_eq_true, false_iff, not_and,
          List.foldl_cons]
        intro _
        omega

theorem u8_parse_eq (s : String) :
    u8_from_str_radix_16 s =
      (match s.toList with
       | [] => none
       | c :: rest =>
         if c = '+' then
           match rest with
           | [] => none
           | _ :: _ => parse_hex_digits rest 0
         else parse_hex_digits (c :: rest) 0) := rfl

theorem token_accepted_iff (s : String) :
    token_accepted s = true ↔
      (s = "xx" ∨ ∃ ds : List Char, ds ≠ [] ∧
        (s.toList = ds ∨ s.toList = '+' :: ds) ∧
        (∀ c ∈ ds, (hexDigit? c).isSome = true) ∧ hex_value ds ≤ 255) := by
  by_cases hxx : s = "xx"
  · subst hxx
    simp [token_accepted]
  · have hbeq : (s == "xx") = false := by simpa using hxx
    simp only [token_accepted, hbeq, Bool.false_or]
    rw [or_iff_right hxx]
    cases hl : s.toList with
    | nil =>
      rw [u8_parse_eq, hl]
      constructor
      · intro h
        simp at h
      · rintro ⟨ds, hne, h | h, -, -⟩
        · exact (hne h.symm).elim
        · cases h
    | cons c rest =>
      by_cases hplus : c = '+'
      · subst hplus
        cases rest with
        | nil =>
          rw [u8_parse_eq, hl]
          constructor
          · intro h
            simp at h
          · rintro ⟨ds, hne, h | h, hall, -⟩
            · subst h
              have h2 : (hexDigit? '+').isSome = true :=
                hall '+' (List.mem_singleton.mpr rfl)
              simp [show hexDigit? '+' = none from by decide] at h2
            · injection h with h1 h2
              exact (hne h2.symm).elim
        | cons c2 rest2 =>
          rw [u8_parse_eq, hl,
            show (match ('+' :: c2 :: rest2 : List Char) with
                  | [] => none
                  | c :: rest =>
                    if c = '+' then
                      match rest with
                      | [] => none
                      | _ :: _ => parse_hex_digits rest 0
                    else parse_hex_digits (c :: rest) 0) =
                parse_hex_digits (c2 :: rest2) 0 from rfl]
          rw [parse_hex_digits_isSome (c2 :: rest2) 0 (by omega)]
          constructor
          · rintro ⟨hall, hb⟩
            exact ⟨c2 :: rest2, by simp, Or.inr rfl, hall, hb⟩
          · rintro ⟨ds, hne, h | h, hall, hb⟩
            · subst h
              have h2 : (hexDigit? '+').isSome = true :=
                hall '+' (List.mem_cons_self ..)
              simp [show hexDigit? '+' = none from by decide] at h2
            · injection h with h1 h2
              subst h2
              exact ⟨hall, hb⟩
      · have hred : (match (c :: rest : List Char) with
            | [] => none
            | c' :: rest' =>
              if c' = '+' then
                match rest' with
                | [] => none
                | _ :: _ => parse_hex_digits rest' 0
              else parse_hex_digits (c' :: rest') 0) =
            parse_hex_digits (c :: rest) 0 := by simp [hplus]
        rw [u8_parse_eq, hl, hred]
        rw [parse_hex_digits_isSome (c :: rest) 0 (by omega)]
        constructor
        · rintro ⟨hall, hb⟩
          exact ⟨c :: rest, by simp, Or.inl rfl, hall, hb⟩
        · rintro ⟨ds, hne, h | h, hall, hb⟩
          · subst h
            exact ⟨hall, hb⟩
          · injection h with h1 h2
            exact absurd h1 hplus

theorem validate_tokens_error (bytes : List String)
    (hbad : ∃ t ∈ bytes, token_accepted t = false) :
    validate_tokens bytes = .error .badToken := by
  induction bytes with
  | nil => simp at hbad
  | cons v rest ih =>
    obtain ⟨t, ht, htacc⟩ := hbad
    by_cases hvxx : (v == "xx") = true
    · rw [show validate_tokens (v :: rest) = validate_tokens rest by
        simp [validate_tokens, hvxx]]
      apply ih
      rcases List.mem_cons.mp ht with h | h
      · subst h
        rw [show token_accepted t = true by simp [token_accepted, hvxx]] at htacc
        cases htacc
      · exact ⟨t, h, htacc⟩
    · cases hp : u8_from_str_radix_16 v with
      | none => simp [validate_tokens, hvxx, hp]
      | some b =>
        rw [show validate_tokens (v :: rest) = validate_tokens rest by
          simp [validate_tokens, hvxx, hp]]
        apply ih
        rcases List.mem_cons.mp ht with h | h
        · subst h
          rw [show token_accepted t = true by simp [token_accepted, hp]] at htacc
          cases htacc
        · exact ⟨t, h, htacc⟩

theorem validate_tokens_ok (bytes : List String)
    (hok : ∀ t ∈ bytes, token_accepted t = true) :
    validate_tokens bytes = .ok () := by
  induction bytes with
  | nil => rfl
  | cons v rest ih =>
    have hv := hok v (List.mem_cons_self ..)
    by_cases hvxx : (v == "xx") = true
    · rw [show validate_tokens (v :: rest) = validate_tokens rest by
        simp [validate_tokens, hvxx]]
      exact ih (fun t ht => hok t (List.mem_cons_of_mem _ ht))
    · have hsome : (u8_from_str_radix_16 v).isSome = true := by
        rw [token_accepted] at hv
        simp only [Bool.or_eq_true] at hv
        rcases hv with h | h
        · exact absurd h hvxx
        · exact h
      obtain ⟨b, hb⟩ := Option.isSome_iff_exists.mp hsome
      rw [show validate_tokens (v :: rest) = validate_tokens rest by
        simp [validate_tokens, hvxx, hb]]
      exact ih (fun t ht => hok t (List.mem_cons_of_mem _ ht))

theorem copy_loop_some (r : Nat → Nat) (ro : Nat) (n : Nat) :
    ∀ (i : Nat) (values : Nat → Nat), i + n + ro ≤ BUF_CAP →
      ∃ v, copy_loop r ro i n values = some v := by
  induction n with
  | zero => intro i values _; exact ⟨values, rfl⟩
  | succ n ih =>
    intro i values hle
    have hw : i + ro < BUF_CAP := by omega
    rw [show copy_loop r ro i (n + 1) values =
        copy_loop r ro (i + 1) n (fun j => if j = i + ro then r i else values j) by
      simp [copy_loop, buf_write, hw]]
    exact ih (i + 1) _ (by omega)

theorem token_loop_panic (r : Nat → Nat) (offset ro : Nat) (bytes : List String) :
    ∀ (i : Nat) (values : Nat → Nat),
      (∀ t ∈ bytes, token_accepted t = true) → bytes ≠ [] →
      BUF_CAP ≤ offset + ro + i + (bytes.length - 1) →
      token_loop r offset ro bytes i values = .error .panic := by
  induction bytes with
  | nil => intro i values _ hne _; exact absurd rfl hne
  | cons v rest ih =>
    intro i values hok _ hoob
    have hv := hok v (List.mem_cons_self ..)
    by_cases hidx : offset + ro + i < BUF_CAP
    · have hrest : rest ≠ [] := by
        intro h
        subst h
        simp at hoob
        omega
      have hlen : rest.length ≥ 1 := by
        cases rest with
        | nil => exact absurd rfl hrest
        | cons _ _ => simp
      have hoob' : BUF_CAP ≤ offset + ro + (i + 1) + (rest.length - 1) := by
        simp only [List.length_cons] at hoob
        omega
      by_cases hvxx : (v == "xx") = true
      · by_cases hi : i < FETCH_CAP
        · rw [show token_loop r offset ro (v :: rest) i values =
              token_loop r offset ro rest (i + 1)
                (fun j => if j = offset + ro + i then r i else values j) by
            simp [token_loop, hvxx, buf_read, hi, buf_write, hidx]]
          exact ih (i + 1) _ (fun t ht => hok t (List.mem_cons_of_mem _ ht)) hrest hoob'
        · simp [token_loop, hvxx, buf_read, hi]
      · have hsome : (u8_from_str_radix_16 v).isSome = true := by
          rw [token_accepted] at hv
          simp only [Bool.or_eq_true] at hv
          rcases hv with h | h
          · exact absurd h hvxx
          · exact h
        obtain ⟨b, hb⟩ := Option.isSome_iff_exists.mp hsome
        rw [show token_loop r offset ro (v :: rest) i values =
            token_loop r offset ro rest (i + 1)
              (fun j => if j = offset + ro + i then b else values j) by
          simp [token_loop, hvxx, hb, buf_write, hidx]]
        exact ih (i + 1) _ (fun t ht => hok t (List.mem_cons_of_mem _ ht)) hrest hoob'
    · by_cases hvxx : (v == "xx") = true
      · by_cases hi : i < FETCH_CAP
        · simp [token_loop, hvxx, buf_read, hi, buf_write, hidx]
        · simp [token_loop, hvxx, buf_read, hi]
      · obtain ⟨b, hb⟩ := Option.isSome_iff_exists.mp (by
          rw [token_accepted] at hv
          simp only [Bool.or_eq_true] at hv
          rcases hv with h | h
          · exact absurd h hvxx
          · exact h)
        simp [token_loop, hvxx, hb, buf_write, hidx]

/- ## C4 and C6 amended-claim theorems -/

/-- C4 (amended): a patch token is accepted iff it is the wildcard `"xx"` or
it parses as a `u8` in base 16 — an optional leading `'+'` followed by one
or more hex digits (either letter case) whose value is at most 255 (so
one-digit tokens and `'+'`-prefixed tokens are accepted too, not only
exactly-two-digit ones); and whenever some token is invalid, the whole
operation fails with the token error before any buffer mutation or device
write. -/
theorem c4_token_acceptance :
    (∀ s : String, token_accepted s = true ↔
      (s = "xx" ∨ ∃ ds : List Char, ds ≠ [] ∧
        (s.toList = ds ∨ s.toList = '+' :: ds) ∧
        (∀ c ∈ ds, (hexDigit? c).isSome = true) ∧ hex_value ds ≤ 255)) ∧
    (∀ (reports : List Report) (filter : Option Nat) (bytes : List String)
        (offset : Nat) (r : Nat → Nat),
      reports ≠ [] → (∃ t ∈ bytes, token_accepted t = false) →
      set_core reports filter bytes offset r = .error .badToken) := by
  constructor
  · exact token_accepted_iff
  · intro reports filter bytes offset r hne hbad
    cases reports with
    | nil => exact absurd rfl hne
    | cons x xs =>
      simp [set_core, validate_tokens_error bytes hbad]

/-- Witness for C4: token `"zz"` is rejected and fails the whole `set`
operation with the token error, independent of the device bytes. -/
theorem c4_token_acceptance_witness :
    set_core [⟨some 1, 1⟩] none ["zz"] 0 (fun _ => 0) = .error .badToken :=
  c4_token_acceptance.2 [⟨some 1, 1⟩] none ["zz"] 0 (fun _ => 0)
    (by decide) ⟨"zz", by decide, by decide⟩

/-- C6 (amended): whenever `offset + rid_off + (patch length - 1)` reaches
the output buffer capacity 1024 (at least one token, all tokens valid, a
report successfully selected), the operation takes the index-out-of-bounds
panic path — process termination, not silent truncation or index
wraparound — and since it never reaches the send step, no device write
occurs. -/
theorem set_merge_panic (rep : Report) (r : Nat → Nat) (bytes : List String)
    (offset : Nat)
    (hok : ∀ t ∈ bytes, token_accepted t = true)
    (hbytes : bytes ≠ [])
    (hoob : BUF_CAP ≤ offset + rid_off rep + (bytes.length - 1)) :
    set_merge rep r bytes offset = .error .panic := by
  have hcap : BUF_CAP = 1024 := rfl
  have hf : FETCH_CAP = 20 := rfl
  cases hrid : rep.reportId with
  | some a =>
    have hro : rid_off rep = 0 := by simp [rid_off, hrid]
    simp only [set_merge, hrid]
    by_cases hsz : rep.sizeInBytes ≤ FETCH_CAP
    · rw [if_pos hsz]
      obtain ⟨v, hcopy⟩ := copy_loop_some r (rid_off rep) rep.sizeInBytes 0
        (fun _ => 0) (by omega)
      rw [hcopy]
      exact token_loop_panic r offset (rid_off rep) bytes 0 v hok hbytes (by omega)
    · rw [if_neg hsz]
  | none =>
    have hro : rid_off rep = 1 := by simp [rid_off, hrid]
    obtain ⟨w, hw0⟩ : ∃ w, buf_write BUF_CAP (fun _ => (0 : Nat)) 0 0 = some w := by
      simp only [buf_write]
      rw [if_pos (show 0 < BUF_CAP by decide)]
      exact ⟨_, rfl⟩
    simp only [set_merge, hrid, Option.getD_none, hw0]
    by_cases hsz : rep.sizeInBytes ≤ FETCH_CAP
    · rw [if_pos hsz]
      obtain ⟨v, hcopy⟩ := copy_loop_some r (rid_off rep) rep.sizeInBytes 0 w (by omega)
      rw [hcopy]
      exact token_loop_panic r offset (rid_off rep) bytes 0 v hok hbytes (by omega)
    · rw [if_neg hsz]

/-- C6 (amended): whenever `offset + rid_off + (patch length - 1)` reaches
the output buffer capacity 1024 (at least one token, all tokens valid, a
report successfully selected), the operation takes the index-out-of-bounds
panic path — process termination, not silent truncation or index
wraparound — and since it never reaches the send step, no device write
occurs. -/
theorem c6_oob_panic (reports : List Report) (rep : Report) (filter : Option Nat)
    (bytes : List String) (offset : Nat) (r : Nat → Nat)
    (hne : reports ≠ [])
    (hsel : select_report reports filter = .ok rep)
    (hok : ∀ t ∈ bytes, token_accepted t = true)
    (hbytes : bytes ≠ [])
    (hoob : BUF_CAP ≤ offset + rid_off rep + (bytes.length - 1)) :
    set_core reports filter bytes offset r = .error .panic := by
  cases reports with
  | nil => exact absurd rfl hne
  | cons x xs =>
    have hcore : set_core (x :: xs) filter bytes offset r =
        set_merge rep r bytes offset := by
      simp only [set_core, validate_tokens_ok bytes hok, hsel]
    rw [hcore]
    exact set_merge_panic rep r bytes offset hok hbytes hoob

/-- Witness for C6: a single valid token at offset 1024 panics. -/
theorem c6_oob_panic_witness :
    set_core [⟨some 1, 2⟩] none ["bb"] 1024 (fun _ => 0) = .error .panic :=
  c6_oob_panic [⟨some 1, 2⟩] ⟨some 1, 2⟩ none ["bb"] 1024 (fun _ => 0)
    (by decide) rfl (by decide) (by decide) (by decide)

end HidFeature
